import Mathlib

/-!
Shallow embedding of the cache/coin state model of the `cmpm-121-demo-3`
map game (src/main.ts and the near-duplicate revisions in src/unnamed/).

Numbers: JavaScript numbers are modelled as exact rationals (`ℚ`) for
coordinates and `Int`/`Nat` for counters and indices.  The map-layer
handles (`leaflet.Rectangle`, bounds) and the player position are not part
of any claim and are omitted from the state.  The flyweight
`getOrCreateCell` memoises `latLngToGridCoords` keyed by the exact
coordinate pair, so it is semantically the identity on
`latLngToGridCoords` and is embedded as a direct call.
-/

/-- A coin, identified by the triple (i, j, serial) as in the source
(`{ i: number; j: number; serial: number }`). -/
structure Coin where
  i : Int
  j : Int
  serial : Nat
deriving DecidableEq, Repr

/-- A cache bound to cell (i, j) holding a list of coins (the
`layer`/`bounds` map handles are omitted). -/
structure Cache where
  i : Int
  j : Int
  coins : List Coin
deriving DecidableEq, Repr

/-- A JavaScript `Map` keyed by the cell is embedded as an association
list keyed by the pair (i, j); the source key string \x7b`i`:`j`\x7d is in
bijection with the pair. -/
abbrev StateMap := List ((Int × Int) × List Coin)

/-- `Map.get`: first binding of the key, if any. -/
def mapGet (m : StateMap) (k : Int × Int) : Option (List Coin) :=
  match m with
  | [] => none
  | (k0, v) :: rest => if k0 = k then some v else mapGet rest k

/-- `Map.set`: replace the binding of the key, or append it. -/
def mapSet (m : StateMap) (k : Int × Int) (v : List Coin) : StateMap :=
  match m with
  | [] => [(k, v)]
  | (k0, v0) :: rest => if k0 = k then (k, v) :: rest else (k0, v0) :: mapSet rest k v

/-- The mutable module-level game state: `playerCoins`, the `caches`
array, and the two cell-keyed maps of the part_005/part_006 revisions:
`cacheMementos` (the original coin list of each cache, written once at
spawn) and `currentCacheState` (the map written by `saveCacheState` after
every collect/deposit).  In src/main.ts and the part_000 revision there
is a single map `cacheMementos` which is the target of `saveCacheState`,
i.e. it coincides with this state's `currentCacheState`. -/
structure GameState where
  playerCoins : Int
  caches : List Cache
  cacheMementos : StateMap
  currentCacheState : StateMap
deriving DecidableEq, Repr

/-- The state before any cache is generated: `playerCoins = 0`, no
caches, empty maps. -/
def initState : GameState := ⟨0, [], [], []⟩

/-- `TILE_DEGREES = 1e-4`. -/
def TILE_DEGREES : ℚ := 1 / 10000

/-- Latitude of `OAKES_CLASSROOM`. -/
def OAKES_LAT : ℚ := 36.98949379578401

/-- Longitude of `OAKES_CLASSROOM`. -/
def OAKES_LNG : ℚ := -122.06277128548504

/-- `CACHE_SPAWN_PROBABILITY = 0.1`. -/
def CACHE_SPAWN_PROBABILITY : ℚ := 0.1

/-- `latLngToGridCoords`: `i = Math.floor(lat * 10000)`,
`j = Math.floor(lng * 10000)`. -/
def latLngToGridCoords (lat lng : ℚ) : Int × Int :=
  (Int.floor (lat * 10000), Int.floor (lng * 10000))

/-- Modelled from the spec: the file `src/luck.ts` is not present under
src/ (only its import and call sites are).  The spec says it
deterministically derives a pseudo-random value from a string key; it is
modelled as a deterministic string hash, reduced below to a rational in
[0, 1).  This is the hash part, a natural number < 1000. -/
def luckNum (key : String) : Nat :=
  key.data.foldl (fun h c => (h * 37 + c.toNat) % 1000) 7

/-- Modelled from the spec: the pseudo-random value in [0, 1) derived
deterministically from the string key (see `luckNum`). -/
def luck (key : String) : ℚ := (luckNum key : ℚ) / 1000

/-- The JavaScript key `[i, j].toString()`, i.e. "i,j". -/
def cellKey (i j : Int) : String := toString i ++ "," ++ toString j

/-- The JavaScript key `[i, j, "initialValue"].toString()`. -/
def initialValueKey (i j : Int) : String :=
  toString i ++ "," ++ toString j ++ ",initialValue"

/-- `Math.floor(luck([i, j, "initialValue"].toString()) * 100) + 1`, the
initial number of coins of a fresh cache at cell (i, j). -/
def initialNumCoins (i j : Int) : Nat :=
  (Int.floor (luck (initialValueKey i j) * 100)).toNat + 1

/-- `Array.from({ length: numCoins }, (_, serial) => ({ i, j, serial }))`:
the fresh coin list of a cache at cell (i, j). -/
def freshCoins (i j : Int) : List Coin :=
  (List.range (initialNumCoins i j)).map (fun serial => ⟨i, j, serial⟩)

/-- The deposit loop: `for (serial = 0; serial < amount; serial++)
cache.coins.push(\x7b i, j, serial: cache.coins.length \x7d)`.  Each pushed
coin's serial is the list length at the time of the push. -/
def depositCoins (i j : Int) (coins : List Coin) : Nat → List Coin
  | 0 => coins
  | n + 1 => depositCoins i j (coins ++ [⟨i, j, coins.length⟩]) n

/-- `spawnCache(lat, lng)` (part_005 lines 243-272; src/main.ts lines
193-215 agrees on the state effects): compute the cell, take the coins
from the memento if present (else the fresh list, recording it in the
memento map), record the current state, and append the cache. -/
def spawnCache (s : GameState) (lat lng : ℚ) : GameState :=
  let i := (latLngToGridCoords lat lng).1
  let j := (latLngToGridCoords lat lng).2
  let coins :=
    match mapGet s.cacheMementos (i, j) with
    | some cs => cs
    | none => freshCoins i j
  let mementos :=
    match mapGet s.cacheMementos (i, j) with
    | some _ => s.cacheMementos
    | none => mapSet s.cacheMementos (i, j) coins
  { playerCoins := s.playerCoins
    caches := s.caches ++ [⟨i, j, coins⟩]
    cacheMementos := mementos
    currentCacheState := mapSet s.currentCacheState (i, j) coins }

/-- The collect click handler of the cache at position `idx` of the
`caches` array: if the coin list is non-empty, add its length to
`playerCoins`, empty the list and save the state; otherwise only an
alert is shown. -/
def collect (s : GameState) (idx : Nat) : GameState :=
  match s.caches[idx]? with
  | none => s
  | some c =>
    if 0 < c.coins.length then
      { playerCoins := s.playerCoins + (c.coins.length : Int)
        caches := s.caches.set idx ⟨c.i, c.j, []⟩
        cacheMementos := s.cacheMementos
        currentCacheState := mapSet s.currentCacheState (c.i, c.j) [] }
    else s

/-- The deposit click handler of the cache at position `idx`.  The
`parseInt` result of the input field is embedded as `Option Int`
(`none` for `NaN`).  Guard: reject `NaN` and amounts ≤ 0; accept iff
`playerCoins >= amount`; on success subtract the amount, push that many
coins (serials continuing from the current length) and save the state. -/
def deposit (s : GameState) (idx : Nat) (amount : Option Int) : GameState :=
  match s.caches[idx]?, amount with
  | some c, some n =>
    if 0 < n then
      if n ≤ s.playerCoins then
        { playerCoins := s.playerCoins - n
          caches := s.caches.set idx ⟨c.i, c.j, depositCoins c.i c.j c.coins n.toNat⟩
          cacheMementos := s.cacheMementos
          currentCacheState :=
            mapSet s.currentCacheState (c.i, c.j) (depositCoins c.i c.j c.coins n.toNat) }
      else s
    else s
  | _, _ => s

/-- `resetGameState` of part_005 (lines 219-239, the confirmed branch):
`playerCoins := 0`, each cache whose cell has an entry in the originals
map `cacheMementos` gets that original coin list back (and the restored
list is saved as current state). -/
def resetGameState (s : GameState) : GameState :=
  { playerCoins := 0
    caches := s.caches.map (fun c =>
      match mapGet s.cacheMementos (c.i, c.j) with
      | some orig => ⟨c.i, c.j, orig⟩
      | none => c)
    cacheMementos := s.cacheMementos
    currentCacheState := s.caches.foldl (fun m c =>
      match mapGet s.cacheMementos (c.i, c.j) with
      | some orig => mapSet m (c.i, c.j) orig
      | none => m) s.currentCacheState }

/-- `resetGameState` of the part_000 revision (lines 144-167, the
confirmed branch).  There the only map is the one `saveCacheState`
overwrites on every collect/deposit — this state's `currentCacheState` —
and `getCacheState` reads it, so reset restores each cache to its
last-saved coin list. -/
def resetGameStateV0 (s : GameState) : GameState :=
  { playerCoins := 0
    caches := s.caches.map (fun c =>
      match mapGet s.currentCacheState (c.i, c.j) with
      | some saved => ⟨c.i, c.j, saved⟩
      | none => c)
    cacheMementos := s.cacheMementos
    currentCacheState := s.currentCacheState }

/-- The cell offsets visited by `generateCacheLocations`: i from -8 to 8
(outer), j from -8 to 8 (inner), `NEIGHBORHOOD_SIZE = 8`. -/
def cellList : List (Int × Int) :=
  ((List.range 17).product (List.range 17)).map
    (fun ab => ((ab.1 : Int) - 8, (ab.2 : Int) - 8))

/-- One iteration of the `generateCacheLocations` loop body at offset
`(d.1, d.2)`: spawn iff `luck([i, j].toString()) < CACHE_SPAWN_PROBABILITY`. -/
def spawnStep (st : GameState) (d : Int × Int) : GameState :=
  if luck (cellKey d.1 d.2) < CACHE_SPAWN_PROBABILITY then
    spawnCache st (OAKES_LAT + d.1 * TILE_DEGREES) (OAKES_LNG + d.2 * TILE_DEGREES)
  else st

/-- `generateCacheLocations()`: the double loop over the neighborhood. -/
def generateCacheLocations (s : GameState) : GameState :=
  cellList.foldl spawnStep s

/-- The user-triggered operations on the game state (spawn is included
because `spawnCache` is the only way caches enter the array). -/
inductive Act where
  | spawn (lat lng : ℚ)
  | collect (idx : Nat)
  | deposit (idx : Nat) (amount : Option Int)
  | reset
  | resetV0

/-- Apply one operation. -/
def applyAct (s : GameState) : Act → GameState
  | .spawn lat lng => spawnCache s lat lng
  | .collect idx => collect s idx
  | .deposit idx amount => deposit s idx amount
  | .reset => resetGameState s
  | .resetV0 => resetGameStateV0 s

/-- Apply a sequence of operations. -/
def applyActs (s : GameState) (acts : List Act) : GameState :=
  acts.foldl applyAct s

/-- The conserved total: the player's counter plus the number of coins
across all caches. -/
def totalCoins (s : GameState) : Int :=
  s.playerCoins + (s.caches.map (fun c => (c.coins.length : Int))).sum

/-- A coin list with contiguous serials: position k holds serial k. -/
def GoodList (l : List Coin) : Prop :=
  l.map (fun c => c.serial) = List.range l.length

/-- Every list stored in the map has contiguous serials. -/
def GoodMap (m : StateMap) : Prop := ∀ kv ∈ m, GoodList kv.2

/-- The serial-contiguity invariant over the whole state. -/
def StateInv (s : GameState) : Prop :=
  (∀ c ∈ s.caches, GoodList c.coins) ∧ GoodMap s.cacheMementos ∧ GoodMap s.currentCacheState

instance (l : List Coin) : Decidable (GoodList l) :=
  inferInstanceAs (Decidable (_ = _))

instance (m : StateMap) : Decidable (GoodMap m) :=
  inferInstanceAs (Decidable (∀ kv ∈ m, GoodList kv.2))

instance (s : GameState) : Decidable (StateInv s) :=
  inferInstanceAs (Decidable (_ ∧ _ ∧ _))

/-- Formalises the claim C3's words, not the source: grid indices
obtained by rounding `lat * 10000` and `lng * 10000` toward zero. -/
def truncTowardZero (q : ℚ) : Int :=
  if q < 0 then -Int.floor (-q) else Int.floor q

/-- Formalises the claim C3's words, not the source: `latLngToGridCoords`
as the claim describes it, with rounding toward zero. -/
def latLngToGridCoordsClaim (lat lng : ℚ) : Int × Int :=
  (truncTowardZero (lat * 10000), truncTowardZero (lng * 10000))

/-! ## Basic lemmas about the association-list maps -/

theorem mapGet_mapSet_self (m : StateMap) (k : Int × Int) (v : List Coin) :
    mapGet (mapSet m k v) k = some v := by
  induction m with
  | nil => simp [mapGet, mapSet]
  | cons kv rest ih =>
    by_cases h : kv.1 = k
    · simp [mapGet, mapSet, h]
    · simp [mapGet, mapSet, h, ih]

theorem mem_mapSet (m : StateMap) (k : Int × Int) (v : List Coin) :
    ∀ kv ∈ mapSet m k v, kv = (k, v) ∨ kv ∈ m := by
  induction m with
  | nil =>
    intro kv h
    simpa [mapSet] using h
  | cons kv0 rest ih =>
    intro kv h
    obtain ⟨k0, v0⟩ := kv0
    by_cases h0 : k0 = k
    · subst h0
      unfold mapSet at h
      rw [if_pos rfl, List.mem_cons] at h
      rcases h with h | h
      · exact Or.inl h
      · exact Or.inr (List.mem_cons_of_mem _ h)
    · unfold mapSet at h
      rw [if_neg h0, List.mem_cons] at h
      rcases h with h | h
      · exact Or.inr (h ▸ List.mem_cons_self _ _)
      · rcases ih kv h with h1 | h1
        · exact Or.inl h1
        · exact Or.inr (List.mem_cons_of_mem _ h1)

theorem mapGet_mem (m : StateMap) (k : Int × Int) (v : List Coin) :
    mapGet m k = some v → (k, v) ∈ m := by
  induction m with
  | nil =>
    intro h
    simp [mapGet] at h
  | cons kv0 rest ih =>
    intro h
    obtain ⟨k0, v0⟩ := kv0
    by_cases h0 : k0 = k
    · subst h0
      unfold mapGet at h
      rw [if_pos rfl, Option.some_inj] at h
      subst h
      exact List.mem_cons_self _ _
    · unfold mapGet at h
      rw [if_neg h0] at h
      exact List.mem_cons_of_mem _ (ih h)

theorem goodMap_mapSet (m : StateMap) (k : Int × Int) (v : List Coin)
    (hm : GoodMap m) (hv : GoodList v) : GoodMap (mapSet m k v) := by
  intro kv hkv
  rcases mem_mapSet m k v kv hkv with h | h
  · rw [h]; exact hv
  · exact hm kv h

theorem goodMap_get (m : StateMap) (k : Int × Int) (v : List Coin)
    (hm : GoodMap m) (h : mapGet m k = some v) : GoodList v :=
  hm (k, v) (mapGet_mem m k v h)

/-! ## Lemmas about the modelled luck and the fresh coin list -/

theorem luckNum_lt (key : String) : luckNum key < 1000 := by
  have main : ∀ (l : List Char) (h : Nat), h < 1000 →
      l.foldl (fun h c => (h * 37 + c.toNat) % 1000) h < 1000 := by
    intro l
    induction l with
    | nil => intro h hh; simpa using hh
    | cons c rest ih =>
      intro h _
      exact ih _ (Nat.mod_lt _ (by norm_num))
  exact main key.data 7 (by norm_num)

theorem luck_nonneg (key : String) : 0 ≤ luck key := by
  unfold luck
  positivity

theorem luck_lt_one (key : String) : luck key < 1 := by
  unfold luck
  rw [div_lt_one (by norm_num)]
  exact_mod_cast luckNum_lt key

theorem initialNumCoins_pos (i j : Int) : 1 ≤ initialNumCoins i j := by
  unfold initialNumCoins
  omega

theorem initialNumCoins_le (i j : Int) : initialNumCoins i j ≤ 100 := by
  unfold initialNumCoins
  have h1 : luck (initialValueKey i j) * 100 < 100 := by
    have := luck_lt_one (initialValueKey i j)
    nlinarith
  have h2 : Int.floor (luck (initialValueKey i j) * 100) < 100 := by
    have := Int.floor_le (luck (initialValueKey i j) * 100)
    exact_mod_cast lt_of_le_of_lt this h1
  omega

theorem freshCoins_length (i j : Int) :
    (freshCoins i j).length = initialNumCoins i j := by
  simp [freshCoins]

theorem freshCoins_ne_nil (i j : Int) : freshCoins i j ≠ [] := by
  intro h
  have hl := freshCoins_length i j
  rw [h] at hl
  have hp := initialNumCoins_pos i j
  simp only [List.length_nil] at hl
  omega

theorem goodList_freshCoins (i j : Int) : GoodList (freshCoins i j) := by
  unfold GoodList
  rw [freshCoins_length]
  unfold freshCoins
  rw [List.map_map]
  exact List.map_id (List.range (initialNumCoins i j))

theorem goodList_nil : GoodList [] := by
  simp [GoodList]

/-! ## Lemmas about the deposit loop -/

theorem depositCoins_succ (i j : Int) :
    ∀ (n : Nat) (coins : List Coin),
      depositCoins i j coins (n + 1) =
        depositCoins i j coins n ++ [⟨i, j, coins.length + n⟩] := by
  intro n
  induction n with
  | zero => intro coins; simp [depositCoins]
  | succ m ih =>
    intro coins
    rw [depositCoins, ih, depositCoins]
    congr 3
    simp
    omega

theorem depositCoins_eq (i j : Int) :
    ∀ (n : Nat) (coins : List Coin),
      depositCoins i j coins n =
        coins ++ (List.range n).map (fun k => ⟨i, j, coins.length + k⟩) := by
  intro n
  induction n with
  | zero => intro coins; simp [depositCoins]
  | succ m ih =>
    intro coins
    rw [depositCoins_succ, ih, List.range_succ]
    simp [List.append_assoc]

theorem depositCoins_length (i j : Int) (coins : List Coin) (n : Nat) :
    (depositCoins i j coins n).length = coins.length + n := by
  rw [depositCoins_eq]
  simp

theorem goodList_depositCoins (i j : Int) (coins : List Coin) (n : Nat)
    (h : GoodList coins) : GoodList (depositCoins i j coins n) := by
  induction n generalizing coins with
  | zero => simpa [depositCoins]
  | succ m ih =>
    rw [depositCoins]
    apply ih
    unfold GoodList at h ⊢
    simp only [List.map_append, List.length_append, h]
    simp [List.range_succ]

/-! ## List helper lemmas -/

theorem mem_of_mem_set {α : Type} (l : List α) (x a : α) :
    ∀ idx : Nat, a ∈ l.set idx x → a = x ∨ a ∈ l := by
  induction l with
  | nil =>
    intro idx h
    simp [List.set] at h
  | cons b t ih =>
    intro idx h
    cases idx with
    | zero =>
      simp only [List.set, List.mem_cons] at h
      rcases h with h | h
      · exact Or.inl h
      · exact Or.inr (List.mem_cons_of_mem _ h)
    | succ m =>
      simp only [List.set, List.mem_cons] at h
      rcases h with h | h
      · exact Or.inr (h ▸ List.mem_cons_self _ _)
      · rcases ih m h with h1 | h1
        · exact Or.inl h1
        · exact Or.inr (List.mem_cons_of_mem _ h1)

theorem sum_map_set (f : Cache → Int) :
    ∀ (l : List Cache) (idx : Nat) (x c : Cache), l[idx]? = some c →
      ((l.set idx x).map f).sum = (l.map f).sum - f c + f x := by
  intro l
  induction l with
  | nil => intro idx x c h; simp at h
  | cons b t ih =>
    intro idx x c h
    cases idx with
    | zero =>
      simp at h
      subst h
      simp [List.set]
      ring
    | succ m =>
      simp only [List.getElem?_cons_succ] at h
      simp only [List.set, List.map_cons, List.sum_cons, ih t.length x c,
        ih m x c h]
      ring

/-! ## Preservation of nonnegativity of the player counter (claim C8) -/

theorem playerCoins_spawnCache (s : GameState) (lat lng : ℚ) :
    (spawnCache s lat lng).playerCoins = s.playerCoins := rfl

theorem playerCoins_nonneg_applyAct (s : GameState) (a : Act)
    (h : 0 ≤ s.playerCoins) : 0 ≤ (applyAct s a).playerCoins := by
  cases a with
  | spawn lat lng => simpa [applyAct, playerCoins_spawnCache] using h
  | collect idx =>
    simp only [applyAct, collect]
    cases hm : s.caches[idx]? with
    | none => exact h
    | some c =>
      by_cases hc : 0 < c.coins.length
      · simp only [if_pos hc]
        positivity
      · simp only [if_neg hc]
        exact h
  | deposit idx amount =>
    simp only [applyAct, deposit]
    cases hm : s.caches[idx]? with
    | none => exact h
    | some c =>
      cases amount with
      | none => exact h
      | some n =>
        by_cases hn : 0 < n
        · by_cases hb : n ≤ s.playerCoins
          · simp only [if_pos hn, if_pos hb]
            omega
          · simpa [if_pos hn, if_neg hb] using h
        · simpa [if_neg hn] using h
  | reset => simp [applyAct, resetGameState]
  | resetV0 => simp [applyAct, resetGameStateV0]

theorem playerCoins_nonneg_applyActs :
    ∀ (acts : List Act) (s : GameState), 0 ≤ s.playerCoins →
      0 ≤ (applyActs s acts).playerCoins := by
  intro acts
  induction acts with
  | nil => intro s h; simpa [applyActs] using h
  | cons a rest ih =>
    intro s h
    have h1 := playerCoins_nonneg_applyAct s a h
    simpa [applyActs] using ih (applyAct s a) h1

/-! ## Preservation of the serial-contiguity invariant (claim C10) -/

theorem stateInv_spawnCache (s : GameState) (lat lng : ℚ)
    (h : StateInv s) : StateInv (spawnCache s lat lng) := by
  obtain ⟨hc, hmem, hcur⟩ := h
  unfold spawnCache
  cases hm : mapGet s.cacheMementos
      ((latLngToGridCoords lat lng).1, (latLngToGridCoords lat lng).2) with
  | some cs =>
    simp only [hm]
    have hcs : GoodList cs := goodMap_get _ _ _ hmem hm
    refine ⟨?_, hmem, goodMap_mapSet _ _ _ hcur hcs⟩
    intro c hcmem
    rcases List.mem_append.mp hcmem with h1 | h1
    · exact hc c h1
    · rcases List.mem_singleton.mp h1 with rfl
      exact hcs
  | none =>
    simp only [hm]
    have hfresh : GoodList (freshCoins (latLngToGridCoords lat lng).1
        (latLngToGridCoords lat lng).2) := goodList_freshCoins _ _
    refine ⟨?_, goodMap_mapSet _ _ _ hmem hfresh, goodMap_mapSet _ _ _ hcur hfresh⟩
    intro c hcmem
    rcases List.mem_append.mp hcmem with h1 | h1
    · exact hc c h1
    · rcases List.mem_singleton.mp h1 with rfl
      exact hfresh

theorem stateInv_collect (s : GameState) (idx : Nat)
    (h : StateInv s) : StateInv (collect s idx) := by
  obtain ⟨hc, hmem, hcur⟩ := h
  unfold collect
  cases hm : s.caches[idx]? with
  | none => exact ⟨hc, hmem, hcur⟩
  | some c =>
    by_cases hne : 0 < c.coins.length
    · simp only [if_pos hne]
      refine ⟨?_, hmem, goodMap_mapSet _ _ _ hcur goodList_nil⟩
      intro c0 hc0
      rcases mem_of_mem_set _ _ _ _ hc0 with h1 | h1
      · rw [h1]; exact goodList_nil
      · exact hc c0 h1
    · simp only [if_neg hne]
      exact ⟨hc, hmem, hcur⟩

theorem stateInv_deposit (s : GameState) (idx : Nat) (amount : Option Int)
    (h : StateInv s) : StateInv (deposit s idx amount) := by
  obtain ⟨hc, hmem, hcur⟩ := h
  unfold deposit
  cases hm : s.caches[idx]? with
  | none => exact ⟨hc, hmem, hcur⟩
  | some c =>
    cases amount with
    | none => exact ⟨hc, hmem, hcur⟩
    | some n =>
      by_cases hn : 0 < n
      · by_cases hb : n ≤ s.playerCoins
        · simp only [if_pos hn, if_pos hb]
          have hcg : GoodList c.coins := hc c (List.getElem?_mem hm)
          have hdep : GoodList (depositCoins c.i c.j c.coins n.toNat) :=
            goodList_depositCoins _ _ _ _ hcg
          refine ⟨?_, hmem, goodMap_mapSet _ _ _ hcur hdep⟩
          intro c0 hc0
          rcases mem_of_mem_set _ _ _ _ hc0 with h1 | h1
          · rw [h1]; exact hdep
          · exact hc c0 h1
        · simp only [if_pos hn, if_neg hb]
          exact ⟨hc, hmem, hcur⟩
      · simp only [if_neg hn]
        exact ⟨hc, hmem, hcur⟩

theorem goodMap_restore_foldl (mems : StateMap) (hmem : GoodMap mems) :
    ∀ (l : List Cache) (m : StateMap), GoodMap m →
      GoodMap (l.foldl (fun m c =>
        match mapGet mems (c.i, c.j) with
        | some orig => mapSet m (c.i, c.j) orig
        | none => m) m) := by
  intro l
  induction l with
  | nil => intro m hm; simpa [List.foldl] using hm
  | cons c rest ih =>
    intro m hm
    simp only [List.foldl]
    cases hg : mapGet mems (c.i, c.j) with
    | none => simpa [hg] using ih m hm
    | some orig =>
      have ho : GoodList orig := goodMap_get _ _ _ hmem hg
      simpa [hg] using ih (mapSet m (c.i, c.j) orig) (goodMap_mapSet _ _ _ hm ho)

theorem stateInv_reset (s : GameState) (h : StateInv s) :
    StateInv (resetGameState s) := by
  obtain ⟨hc, hmem, hcur⟩ := h
  unfold resetGameState
  refine ⟨?_, hmem, goodMap_restore_foldl s.cacheMementos hmem s.caches _ hcur⟩
  intro c hcmem
  rcases List.mem_map.mp hcmem with ⟨c0, hc0, rfl⟩
  cases hg : mapGet s.cacheMementos (c0.i, c0.j) with
  | none => simpa [hg] using hc c0 hc0
  | some orig =>
    simpa [hg] using goodMap_get _ _ _ hmem hg

theorem stateInv_resetV0 (s : GameState) (h : StateInv s) :
    StateInv (resetGameStateV0 s) := by
  obtain ⟨hc, hmem, hcur⟩ := h
  unfold resetGameStateV0
  refine ⟨?_, hmem, hcur⟩
  intro c hcmem
  rcases List.mem_map.mp hcmem with ⟨c0, hc0, rfl⟩
  cases hg : mapGet s.currentCacheState (c0.i, c0.j) with
  | none => simpa [hg] using hc c0 hc0
  | some saved =>
    simpa [hg] using goodMap_get _ _ _ hcur hg

theorem stateInv_applyAct (s : GameState) (a : Act) (h : StateInv s) :
    StateInv (applyAct s a) := by
  cases a with
  | spawn lat lng => exact stateInv_spawnCache s lat lng h
  | collect idx => exact stateInv_collect s idx h
  | deposit idx amount => exact stateInv_deposit s idx amount h
  | reset => exact stateInv_reset s h
  | resetV0 => exact stateInv_resetV0 s h

theorem stateInv_applyActs :
    ∀ (acts : List Act) (s : GameState), StateInv s →
      StateInv (applyActs s acts) := by
  intro acts
  induction acts with
  | nil => intro s h; simpa [applyActs] using h
  | cons a rest ih =>
    intro s h
    simpa [applyActs] using ih (applyAct s a) (stateInv_applyAct s a h)

theorem stateInv_initState : StateInv initState := by
  refine ⟨?_, ?_, ?_⟩ <;> intro x hx <;> simp [initState] at hx

theorem stateInv_spawnStep (s : GameState) (d : Int × Int) (h : StateInv s) :
    StateInv (spawnStep s d) := by
  unfold spawnStep
  by_cases hl : luck (cellKey d.1 d.2) < CACHE_SPAWN_PROBABILITY
  · simpa [if_pos hl] using stateInv_spawnCache s _ _ h
  · simpa [if_neg hl] using h

theorem stateInv_generate : StateInv (generateCacheLocations initState) := by
  unfold generateCacheLocations
  have main : ∀ (l : List (Int × Int)) (s : GameState), StateInv s →
      StateInv (l.foldl spawnStep s) := by
    intro l
    induction l with
    | nil => intro s h; simpa using h
    | cons d rest ih =>
      intro s h
      simpa using ih (spawnStep s d) (stateInv_spawnStep s d h)
  exact main cellList initState stateInv_initState

/-! ## Characterizations of collect and deposit -/

theorem collect_none (s : GameState) (idx : Nat)
    (h : s.caches[idx]? = none) : collect s idx = s := by
  unfold collect
  rw [h]

theorem collect_pos (s : GameState) (idx : Nat) (c : Cache)
    (h : s.caches[idx]? = some c) (hc : 0 < c.coins.length) :
    collect s idx =
      { playerCoins := s.playerCoins + (c.coins.length : Int)
        caches := s.caches.set idx ⟨c.i, c.j, []⟩
        cacheMementos := s.cacheMementos
        currentCacheState := mapSet s.currentCacheState (c.i, c.j) [] } := by
  unfold collect
  rw [h]
  simp only [if_pos hc]

theorem collect_zero (s : GameState) (idx : Nat) (c : Cache)
    (h : s.caches[idx]? = some c) (hc : c.coins.length = 0) :
    collect s idx = s := by
  unfold collect
  rw [h]
  simp [hc]

theorem deposit_no_cache (s : GameState) (idx : Nat) (amount : Option Int)
    (h : s.caches[idx]? = none) : deposit s idx amount = s := by
  unfold deposit
  rw [h]

theorem deposit_nan (s : GameState) (idx : Nat) :
    deposit s idx none = s := by
  unfold deposit
  cases s.caches[idx]? <;> rfl

theorem deposit_nonpos (s : GameState) (idx : Nat) (c : Cache) (n : Int)
    (h : s.caches[idx]? = some c) (hn : n ≤ 0) :
    deposit s idx (some n) = s := by
  unfold deposit
  rw [h]
  simp only [if_neg (not_lt.mpr hn)]

theorem deposit_insufficient (s : GameState) (idx : Nat) (c : Cache) (n : Int)
    (h : s.caches[idx]? = some c) (hn : 0 < n) (hb : s.playerCoins < n) :
    deposit s idx (some n) = s := by
  unfold deposit
  rw [h]
  simp only [if_pos hn, if_neg (not_le.mpr hb)]

theorem deposit_success (s : GameState) (idx : Nat) (c : Cache) (n : Int)
    (h : s.caches[idx]? = some c) (hn : 0 < n) (hb : n ≤ s.playerCoins) :
    deposit s idx (some n) =
      { playerCoins := s.playerCoins - n
        caches := s.caches.set idx ⟨c.i, c.j, depositCoins c.i c.j c.coins n.toNat⟩
        cacheMementos := s.cacheMementos
        currentCacheState :=
          mapSet s.currentCacheState (c.i, c.j) (depositCoins c.i c.j c.coins n.toNat) } := by
  unfold deposit
  rw [h]
  simp only [if_pos hn, if_pos hb]

/-! ## The generated cache layout (claims C4 and C7) -/

/-- The cell a cache is bound to. -/
def cellOf (c : Cache) : Int × Int := (c.i, c.j)

/-- The grid cell of the spawn position at loop offset `(d.1, d.2)`. -/
def offsetCell (d : Int × Int) : Int × Int := (369894 + d.1, -1220628 + d.2)

theorem grid_offset (di dj : Int) :
    latLngToGridCoords (OAKES_LAT + di * TILE_DEGREES) (OAKES_LNG + dj * TILE_DEGREES)
      = (369894 + di, -1220628 + dj) := by
  unfold latLngToGridCoords OAKES_LAT OAKES_LNG TILE_DEGREES
  have h1 : ((36.98949379578401 : ℚ) + (di : ℚ) * (1 / 10000)) * 10000
      = (0.9379578401 : ℚ) + ((369894 + di : ℤ) : ℚ) := by
    push_cast
    ring_nf
  have h2 : ((-122.06277128548504 : ℚ) + (dj : ℚ) * (1 / 10000)) * 10000
      = (0.2871451496 : ℚ) + ((-1220628 + dj : ℤ) : ℚ) := by
    push_cast
    ring_nf
  rw [h1, h2, Int.floor_add_int, Int.floor_add_int]
  have h3 : Int.floor (0.9379578401 : ℚ) = 0 := by
    rw [Int.floor_eq_zero_iff, Set.mem_Ico]
    norm_num
  have h4 : Int.floor (0.2871451496 : ℚ) = 0 := by
    rw [Int.floor_eq_zero_iff, Set.mem_Ico]
    norm_num
  rw [h3, h4]
  simp

theorem offsetCell_injective : Function.Injective offsetCell := by
  intro a b h
  unfold offsetCell at h
  rw [Prod.ext_iff] at h ⊢
  obtain ⟨h1, h2⟩ := h
  omega

theorem spawnCache_caches_cells (s : GameState) (lat lng : ℚ) :
    (spawnCache s lat lng).caches.map cellOf
      = s.caches.map cellOf ++ [latLngToGridCoords lat lng] := by
  unfold spawnCache
  cases mapGet s.cacheMementos
      ((latLngToGridCoords lat lng).1, (latLngToGridCoords lat lng).2) <;>
    simp [cellOf]

/-- The Boolean spawn test of `generateCacheLocations`. -/
def luckyCell (d : Int × Int) : Bool :=
  decide (luck (cellKey d.1 d.2) < CACHE_SPAWN_PROBABILITY)

theorem spawnFold_cells :
    ∀ (l : List (Int × Int)) (s : GameState),
      (l.foldl spawnStep s).caches.map cellOf
        = s.caches.map cellOf ++ (l.filter luckyCell).map
            (fun d => latLngToGridCoords (OAKES_LAT + d.1 * TILE_DEGREES)
              (OAKES_LNG + d.2 * TILE_DEGREES)) := by
  intro l
  induction l with
  | nil => intro s; simp
  | cons d rest ih =>
    intro s
    rw [List.foldl_cons]
    rw [ih (spawnStep s d)]
    unfold spawnStep
    by_cases hl : luck (cellKey d.1 d.2) < CACHE_SPAWN_PROBABILITY
    · rw [if_pos hl]
      rw [spawnCache_caches_cells]
      have hf : (d :: rest).filter luckyCell = d :: rest.filter luckyCell := by
        simp [List.filter_cons, luckyCell, hl]
      rw [hf, List.map_cons, List.append_assoc, List.singleton_append]
    · rw [if_neg hl]
      have hf : (d :: rest).filter luckyCell = rest.filter luckyCell := by
        simp [List.filter_cons, luckyCell, hl]
      rw [hf]

theorem generate_cells :
    (generateCacheLocations initState).caches.map cellOf
      = (cellList.filter luckyCell).map
          (fun d => latLngToGridCoords (OAKES_LAT + d.1 * TILE_DEGREES)
            (OAKES_LNG + d.2 * TILE_DEGREES)) := by
  unfold generateCacheLocations
  rw [spawnFold_cells cellList initState]
  rfl

theorem generate_cells_offset :
    (generateCacheLocations initState).caches.map cellOf
      = (cellList.filter luckyCell).map offsetCell := by
  rw [generate_cells]
  apply List.map_congr_left
  intro d _
  rw [grid_offset]
  rfl

theorem cellList_nodup : cellList.Nodup := by
  unfold cellList
  apply List.Nodup.map
  · intro a b h
    simp only [Prod.mk.injEq] at h
    obtain ⟨h1, h2⟩ := h
    rw [Prod.ext_iff]
    omega
  · exact List.Nodup.product (List.nodup_range 17) (List.nodup_range 17)

theorem generate_cells_nodup :
    ((generateCacheLocations initState).caches.map cellOf).Nodup := by
  rw [generate_cells_offset]
  exact (cellList_nodup.filter luckyCell).map offsetCell_injective

theorem generate_mem_iff (d : Int × Int) (hd : d ∈ cellList) :
    offsetCell d ∈ (generateCacheLocations initState).caches.map cellOf
      ↔ luck (cellKey d.1 d.2) < CACHE_SPAWN_PROBABILITY := by
  rw [generate_cells_offset]
  rw [List.mem_map_of_injective offsetCell_injective]
  rw [List.mem_filter]
  unfold luckyCell
  simp [hd]

/-! ## Claim theorems -/

/-- Claim C3, counterexample: at the app's own home position the
longitude coordinate is negative and non-integral after scaling, and the
code's `Math.floor` (toward negative infinity) disagrees with the
claim's rounding toward zero: the code yields j = -1220628, the claim's
reading yields j = -1220627. -/
theorem c3_counterexample :
    latLngToGridCoords OAKES_LAT OAKES_LNG = (369894, -1220628)
    ∧ latLngToGridCoordsClaim OAKES_LAT OAKES_LNG = (369894, -1220627)
    ∧ latLngToGridCoords OAKES_LAT OAKES_LNG
        ≠ latLngToGridCoordsClaim OAKES_LAT OAKES_LNG := by
  have hlat : OAKES_LAT * 10000 = (0.9379578401 : ℚ) + ((369894 : ℤ) : ℚ) := by
    unfold OAKES_LAT
    norm_num
  have hlng : OAKES_LNG * 10000 = (0.2871451496 : ℚ) + ((-1220628 : ℤ) : ℚ) := by
    unfold OAKES_LNG
    norm_num
  have hlatf : Int.floor (OAKES_LAT * 10000) = 369894 := by
    rw [hlat, Int.floor_add_int]
    have h3 : Int.floor (0.9379578401 : ℚ) = 0 := by
      rw [Int.floor_eq_zero_iff, Set.mem_Ico]
      norm_num
    rw [h3]
    norm_num
  have hlngf : Int.floor (OAKES_LNG * 10000) = -1220628 := by
    rw [hlng, Int.floor_add_int]
    have h4 : Int.floor (0.2871451496 : ℚ) = 0 := by
      rw [Int.floor_eq_zero_iff, Set.mem_Ico]
      norm_num
    rw [h4]
    norm_num
  have hcode : latLngToGridCoords OAKES_LAT OAKES_LNG = (369894, -1220628) := by
    unfold latLngToGridCoords
    rw [hlatf, hlngf]
  have hlatpos : ¬ OAKES_LAT * 10000 < 0 := by
    unfold OAKES_LAT
    norm_num
  have hlngneg : OAKES_LNG * 10000 < 0 := by
    unfold OAKES_LNG
    norm_num
  have hnegf : Int.floor (-(OAKES_LNG * 10000)) = 1220627 := by
    have hn : -(OAKES_LNG * 10000) = (0.7128548504 : ℚ) + ((1220627 : ℤ) : ℚ) := by
      unfold OAKES_LNG
      norm_num
    rw [hn, Int.floor_add_int]
    have h5 : Int.floor (0.7128548504 : ℚ) = 0 := by
      rw [Int.floor_eq_zero_iff, Set.mem_Ico]
      norm_num
    rw [h5]
    norm_num
  have hclaim : latLngToGridCoordsClaim OAKES_LAT OAKES_LNG = (369894, -1220627) := by
    unfold latLngToGridCoordsClaim truncTowardZero
    rw [if_neg hlatpos, if_pos hlngneg, hlatf, hnegf]
  refine ⟨hcode, hclaim, ?_⟩
  rw [hcode, hclaim]
  simp

/-- Claim C3 (amended): for every latitude/longitude pair, including
negative coordinates, `latLngToGridCoords` returns the floors of
`lat * 10000` and `lng * 10000` - rounding toward negative infinity
(`Math.floor`), not toward zero - so the returned pair (i, j) is
characterized by i <= lat*10000 < i+1 and j <= lng*10000 < j+1. -/
theorem c3_grid_coords_floor (lat lng : ℚ) :
    latLngToGridCoords lat lng = (Int.floor (lat * 10000), Int.floor (lng * 10000))
    ∧ (((latLngToGridCoords lat lng).1 : ℚ) ≤ lat * 10000
        ∧ lat * 10000 < (latLngToGridCoords lat lng).1 + 1)
    ∧ (((latLngToGridCoords lat lng).2 : ℚ) ≤ lng * 10000
        ∧ lng * 10000 < (latLngToGridCoords lat lng).2 + 1) := by
  refine ⟨rfl, ⟨Int.floor_le _, ?_⟩, ⟨Int.floor_le _, ?_⟩⟩
  · exact_mod_cast Int.lt_floor_add_one (lat * 10000)
  · exact_mod_cast Int.lt_floor_add_one (lng * 10000)

/-- Claim C4: a cache spawns at neighborhood offset (i, j) iff
`luck([i, j].toString()) < 0.1`; a cache spawned with no saved state
holds exactly `Math.floor(luck([i, j, "initialValue"].toString()) * 100) + 1`
coins with serials 0..n-1, a number between 1 and 100 inclusive.
(`luck` is modelled from the spec because src/luck.ts is not in the
sources; its value is deterministic and lies in [0, 1), which is what
the bounds rest on.) -/
theorem c4_spawn_rule_and_initial_coins :
    (∀ d : Int × Int, d ∈ cellList →
      (offsetCell d ∈ (generateCacheLocations initState).caches.map cellOf
        ↔ luck (cellKey d.1 d.2) < CACHE_SPAWN_PROBABILITY))
    ∧ (∀ i j : Int,
        initialNumCoins i j = (Int.floor (luck (initialValueKey i j) * 100)).toNat + 1
        ∧ 1 ≤ initialNumCoins i j ∧ initialNumCoins i j ≤ 100
        ∧ freshCoins i j = (List.range (initialNumCoins i j)).map (fun k => ⟨i, j, k⟩))
    ∧ (∀ (s : GameState) (lat lng : ℚ),
        mapGet s.cacheMementos (latLngToGridCoords lat lng) = none →
        (spawnCache s lat lng).caches = s.caches ++
          [⟨(latLngToGridCoords lat lng).1, (latLngToGridCoords lat lng).2,
            freshCoins (latLngToGridCoords lat lng).1 (latLngToGridCoords lat lng).2⟩]) := by
  refine ⟨generate_mem_iff, ?_, ?_⟩
  · intro i j
    exact ⟨rfl, initialNumCoins_pos i j, initialNumCoins_le i j, rfl⟩
  · intro s lat lng h
    have h2 : mapGet s.cacheMementos
        ((latLngToGridCoords lat lng).1, (latLngToGridCoords lat lng).2) = none := h
    simp only [spawnCache, h2]

/-- Claim C4, witness: offset (8, 8) is in the scanned neighborhood, and
the fresh coin count of cell (0, 0) is between 1 and 100. -/
theorem c4_witness :
    (offsetCell (8, 8) ∈ (generateCacheLocations initState).caches.map cellOf
      ↔ luck (cellKey 8 8) < CACHE_SPAWN_PROBABILITY)
    ∧ 1 ≤ initialNumCoins 0 0 ∧ initialNumCoins 0 0 ≤ 100 :=
  ⟨c4_spawn_rule_and_initial_coins.1 (8, 8) (by decide),
   (c4_spawn_rule_and_initial_coins.2.1 0 0).2.1,
   (c4_spawn_rule_and_initial_coins.2.1 0 0).2.2.1⟩

/-- Claim C7: after cache generation every cache is bound to the grid
cell of the position it was spawned at, and the bound cells are pairwise
distinct (each cell hosts at most one cache). -/
theorem c7_unique_cells :
    ((generateCacheLocations initState).caches.map cellOf).Nodup
    ∧ (generateCacheLocations initState).caches.map cellOf
        = (cellList.filter luckyCell).map
            (fun d => latLngToGridCoords (OAKES_LAT + d.1 * TILE_DEGREES)
              (OAKES_LNG + d.2 * TILE_DEGREES)) :=
  ⟨generate_cells_nodup, generate_cells⟩

/-- Claim C5: a deposit of amount n (the `parseInt` result of the input,
`none` for NaN) into the cache at `idx` succeeds iff n is a positive
integer and the player's counter is at least n; on success the counter
drops by exactly n and the cache's coin list grows by exactly n coins;
on every failure (NaN, non-positive amount, insufficient balance) the
whole state is unchanged. -/
theorem c5_deposit_rules (s : GameState) (idx : Nat) (c : Cache)
    (h : s.caches[idx]? = some c) (n : Int) :
    (0 < n → n ≤ s.playerCoins →
      (deposit s idx (some n)).playerCoins = s.playerCoins - n
      ∧ (deposit s idx (some n)).caches
          = s.caches.set idx ⟨c.i, c.j, depositCoins c.i c.j c.coins n.toNat⟩
      ∧ ((depositCoins c.i c.j c.coins n.toNat).length : Int)
          = (c.coins.length : Int) + n)
    ∧ (0 < n → s.playerCoins < n → deposit s idx (some n) = s)
    ∧ (n ≤ 0 → deposit s idx (some n) = s)
    ∧ deposit s idx none = s := by
  refine ⟨?_, ?_, ?_, deposit_nan s idx⟩
  · intro hn hb
    rw [deposit_success s idx c n h hn hb]
    refine ⟨rfl, rfl, ?_⟩
    rw [depositCoins_length]
    push_cast
    omega
  · intro hn hb
    exact deposit_insufficient s idx c n h hn hb
  · intro hn
    exact deposit_nonpos s idx c n h hn

/-- A small concrete state for witnesses: the player holds 5 coins and
one empty cache at cell (0, 0) exists. -/
def c5State : GameState := ⟨5, [⟨0, 0, []⟩], [], []⟩

/-- Claim C5, witness: depositing 3 of the player's 5 coins into the
empty cache at (0, 0) leaves counter 2 and a 3-coin list. -/
theorem c5_witness :
    (deposit c5State 0 (some 3)).playerCoins = c5State.playerCoins - 3
    ∧ (deposit c5State 0 (some 3)).caches
        = c5State.caches.set 0 ⟨0, 0, depositCoins 0 0 [] (3 : Int).toNat⟩
    ∧ ((depositCoins 0 0 ([] : List Coin) (3 : Int).toNat).length : Int)
        = (([] : List Coin).length : Int) + 3 :=
  (c5_deposit_rules c5State 0 ⟨0, 0, []⟩ rfl 3).1 (by decide) (by decide)

/-- Claim C6: collect on the cache at `idx` with a non-empty coin list
adds the whole coin count to the player's counter and empties that
cache's list (other caches are untouched, being `List.set` at `idx`);
collect on an empty cache leaves the whole state unchanged. -/
theorem c6_collect_rules (s : GameState) (idx : Nat) (c : Cache)
    (h : s.caches[idx]? = some c) :
    (0 < c.coins.length →
      (collect s idx).playerCoins = s.playerCoins + (c.coins.length : Int)
      ∧ (collect s idx).caches = s.caches.set idx ⟨c.i, c.j, []⟩)
    ∧ (c.coins.length = 0 → collect s idx = s) := by
  constructor
  · intro hc
    rw [collect_pos s idx c h hc]
    exact ⟨rfl, rfl⟩
  · intro hc
    exact collect_zero s idx c h hc

/-- A small concrete state for witnesses: one cache at cell (1, 2)
holding a single coin, player counter 0. -/
def c6State : GameState := ⟨0, [⟨1, 2, [⟨1, 2, 0⟩]⟩], [], []⟩

/-- Claim C6, witness: collecting the one-coin cache yields counter 1
and an emptied cache. -/
theorem c6_witness :
    (collect c6State 0).playerCoins
        = c6State.playerCoins + (((⟨1, 2, [⟨1, 2, 0⟩]⟩ : Cache)).coins.length : Int)
    ∧ (collect c6State 0).caches = c6State.caches.set 0 ⟨1, 2, []⟩ :=
  (c6_collect_rules c6State 0 ⟨1, 2, [⟨1, 2, 0⟩]⟩ rfl).1 (by decide)

/-- Claim C9: collect and deposit conserve the total number of coins:
the player's counter plus the coins held across all caches is unchanged
by every collect or deposit, successful or failed. -/
theorem c9_conservation (s : GameState) (idx : Nat) (amount : Option Int) :
    totalCoins (collect s idx) = totalCoins s
    ∧ totalCoins (deposit s idx amount) = totalCoins s := by
  constructor
  · cases hm : s.caches[idx]? with
    | none => rw [collect_none s idx hm]
    | some c =>
      by_cases hc : 0 < c.coins.length
      · rw [collect_pos s idx c hm hc]
        unfold totalCoins
        simp only
        rw [sum_map_set _ s.caches idx ⟨c.i, c.j, []⟩ c hm]
        simp
      · rw [collect_zero s idx c hm (by omega)]
  · cases hm : s.caches[idx]? with
    | none => rw [deposit_no_cache s idx amount hm]
    | some c =>
      cases amount with
      | none => rw [deposit_nan]
      | some n =>
        by_cases hn : 0 < n
        · by_cases hb : n ≤ s.playerCoins
          · rw [deposit_success s idx c n hm hn hb]
            unfold totalCoins
            simp only
            rw [sum_map_set _ s.caches idx
              ⟨c.i, c.j, depositCoins c.i c.j c.coins n.toNat⟩ c hm]
            simp only [depositCoins_length]
            push_cast [Int.toNat_of_nonneg hn.le]
            ring
          · rw [deposit_insufficient s idx c n hm hn (by omega)]
        · rw [deposit_nonpos s idx c n hm (by omega)]

/-- The player counter is unchanged by the generation fold. -/
theorem playerCoins_spawnFold :
    ∀ (l : List (Int × Int)) (s : GameState),
      (l.foldl spawnStep s).playerCoins = s.playerCoins := by
  intro l
  induction l with
  | nil => intro s; rfl
  | cons d rest ih =>
    intro s
    rw [List.foldl_cons, ih]
    unfold spawnStep
    by_cases hl : luck (cellKey d.1 d.2) < CACHE_SPAWN_PROBABILITY
    · rw [if_pos hl]
      rfl
    · rw [if_neg hl]

/-- Claim C8: the player's coin counter starts at 0 (also right after
cache generation) and stays nonnegative under every sequence of
operations, because a deposit is rejected whenever the amount exceeds
the balance. -/
theorem c8_player_nonneg :
    initState.playerCoins = 0
    ∧ (generateCacheLocations initState).playerCoins = 0
    ∧ (∀ (s : GameState) (acts : List Act), 0 ≤ s.playerCoins →
        0 ≤ (applyActs s acts).playerCoins) := by
  refine ⟨rfl, ?_, fun s acts h => playerCoins_nonneg_applyActs acts s h⟩
  unfold generateCacheLocations
  rw [playerCoins_spawnFold]
  rfl

/-- Claim C8, witness: a collect, an excessive deposit and a reset keep
the counter of the concrete state nonnegative. -/
theorem c8_witness :
    0 ≤ (applyActs c5State
      [Act.collect 0, Act.deposit 0 (some 99), Act.reset]).playerCoins :=
  c8_player_nonneg.2.2 c5State [Act.collect 0, Act.deposit 0 (some 99), Act.reset]
    (by decide)

/-- Claim C10: in every state reachable by game operations from a state
satisfying the serial-contiguity invariant, every cache's coin list has
serial k at position k; and the invariant holds for the generated
initial layout (it is established at spawn, and preserved by collect,
deposit and both reset variants). -/
theorem c10_serials_contiguous :
    (∀ (s : GameState) (acts : List Act) (c : Cache), StateInv s →
      c ∈ (applyActs s acts).caches →
      c.coins.map (fun x => x.serial) = List.range c.coins.length)
    ∧ StateInv (generateCacheLocations initState) := by
  constructor
  · intro s acts c hs hc
    exact (stateInv_applyActs acts s hs).1 c hc
  · exact stateInv_generate

/-- A concrete two-coin state for the C10 witness. -/
def c10State : GameState :=
  ⟨0, [⟨0, 0, [⟨0, 0, 0⟩, ⟨0, 0, 1⟩]⟩],
   [((0, 0), [⟨0, 0, 0⟩, ⟨0, 0, 1⟩])],
   [((0, 0), [⟨0, 0, 0⟩, ⟨0, 0, 1⟩])]⟩

/-- Claim C10, witness: after collecting the two-coin cache the emptied
cache still has contiguous serials (trivially, the empty range). -/
theorem c10_witness :
    (⟨0, 0, []⟩ : Cache).coins.map (fun x => x.serial)
      = List.range (⟨0, 0, []⟩ : Cache).coins.length :=
  c10_serials_contiguous.1 c10State [Act.collect 0] ⟨0, 0, []⟩ (by decide) (by decide)

/-- A concrete state for the C2 counterexample: cache 0 at cell (0, 0)
holds the single coin (0, 0, 0); cache 1 at cell (1, 1) is empty. -/
def c2State : GameState :=
  ⟨0, [⟨0, 0, [⟨0, 0, 0⟩]⟩, ⟨1, 1, []⟩],
   [((0, 0), [⟨0, 0, 0⟩]), ((1, 1), [])],
   [((0, 0), [⟨0, 0, 0⟩]), ((1, 1), [])]⟩

/-- Claim C2, counterexample: collect the coin (0, 0, 0) from cache 0,
then deposit one coin into cache 1.  The deposited coin is (1, 1, 0),
not (0, 0, 0): the identity is not preserved, and (0, 0, 0) is in no
cache afterwards (the full coin layout is [[], [(1,1,0)]]). -/
theorem c2_counterexample :
    (deposit (collect c2State 0) 1 (some 1)).caches.map (fun c => c.coins)
      = [[], [⟨1, 1, 0⟩]]
    ∧ (⟨1, 1, 0⟩ : Coin) ≠ (⟨0, 0, 0⟩ : Coin) := by
  decide

/-- Claim C2 (amended): the player's balance is a bare counter, so
collect converts the cache's coins into a count and discards their
identities, and each deposited coin is a freshly minted coin whose
(i, j) is the receiving cache's cell and whose serial continues from
the cache's current list length. -/
theorem c2_deposit_mints (s : GameState) (idx : Nat) (c : Cache)
    (h : s.caches[idx]? = some c) (n : Int) (hn : 0 < n)
    (hb : n ≤ s.playerCoins) :
    (0 < c.coins.length →
      (collect s idx).playerCoins = s.playerCoins + (c.coins.length : Int))
    ∧ (deposit s idx (some n)).caches
        = s.caches.set idx ⟨c.i, c.j,
            c.coins ++ (List.range n.toNat).map
              (fun k => ⟨c.i, c.j, c.coins.length + k⟩)⟩ := by
  constructor
  · intro hc
    rw [collect_pos s idx c h hc]
  · rw [deposit_success s idx c n h hn hb, depositCoins_eq]

/-- A concrete state for the C2 witness: player holds 5 coins, one cache
at cell (3, 4) holding the coin (3, 4, 0). -/
def c2WitState : GameState := ⟨5, [⟨3, 4, [⟨3, 4, 0⟩]⟩], [], []⟩

/-- Claim C2 (amended), witness: depositing 2 coins into the one-coin
cache at (3, 4) mints the coins (3, 4, 1) and (3, 4, 2). -/
theorem c2_witness :
    (collect c2WitState 0).playerCoins
        = c2WitState.playerCoins + (((⟨3, 4, [⟨3, 4, 0⟩]⟩ : Cache)).coins.length : Int)
    ∧ (deposit c2WitState 0 (some 2)).caches
        = c2WitState.caches.set 0 ⟨3, 4,
            [⟨3, 4, 0⟩] ++ (List.range (2 : Int).toNat).map
              (fun k => ⟨3, 4, [(⟨3, 4, 0⟩ : Coin)].length + k⟩)⟩ :=
  ⟨(c2_deposit_mints c2WitState 0 ⟨3, 4, [⟨3, 4, 0⟩]⟩ rfl 2 (by decide)
      (by decide)).1 (by decide),
   (c2_deposit_mints c2WitState 0 ⟨3, 4, [⟨3, 4, 0⟩]⟩ rfl 2 (by decide)
      (by decide)).2⟩

/-- The state right after `spawnCache(0, 0)` runs on the initial state:
one cache at cell (0, 0) holding the fresh coins, both maps holding the
same list. -/
def c1Spawned : GameState :=
  ⟨0, [⟨0, 0, freshCoins 0 0⟩],
   [((0, 0), freshCoins 0 0)],
   [((0, 0), freshCoins 0 0)]⟩

theorem c1_spawn_eq : spawnCache initState 0 0 = c1Spawned := by
  have hc : latLngToGridCoords 0 0 = ((0 : Int), (0 : Int)) := by
    unfold latLngToGridCoords
    norm_num
  unfold spawnCache c1Spawned initState
  rw [hc]
  simp [mapGet, mapSet]

theorem c1_fresh_len : 0 < (freshCoins 0 0).length := by
  rw [freshCoins_length]
  have := initialNumCoins_pos 0 0
  omega

theorem c1_collect_eq :
    collect (spawnCache initState 0 0) 0 =
      ⟨((freshCoins 0 0).length : Int), [⟨0, 0, []⟩],
       [((0, 0), freshCoins 0 0)], [((0, 0), [])]⟩ := by
  rw [c1_spawn_eq]
  rw [collect_pos c1Spawned 0 ⟨0, 0, freshCoins 0 0⟩ rfl c1_fresh_len]
  unfold c1Spawned
  simp [mapSet]

/-- Claim C1 (evaluation at the failing input): spawn the cache at cell
(0, 0), collect everything, then reset.  In the part_000 revision
(`resetGameStateV0`, whose only memento map is the one `saveCacheState`
overwrote at collect) the cache stays empty after reset, even though
the spawned cache's original list was non-empty and part_000's own
alert says all coins return to their original caches; the part_005/006
`resetGameState`, which keeps a separate originals map, restores the
original list, as the claim states.  Player coins are 0 after reset in
both. -/
theorem c1_reset_memento_eval :
    (spawnCache initState 0 0).caches.map (fun c => c.coins) = [freshCoins 0 0]
    ∧ freshCoins 0 0 ≠ []
    ∧ (resetGameStateV0 (collect (spawnCache initState 0 0) 0)).playerCoins = 0
    ∧ (resetGameStateV0 (collect (spawnCache initState 0 0) 0)).caches.map
        (fun c => c.coins) = [[]]
    ∧ (resetGameState (collect (spawnCache initState 0 0) 0)).caches.map
        (fun c => c.coins) = [freshCoins 0 0] := by
  refine ⟨?_, freshCoins_ne_nil 0 0, ?_, ?_, ?_⟩
  · rw [c1_spawn_eq]
    rfl
  · rfl
  · rw [c1_collect_eq]
    unfold resetGameStateV0
    simp [mapGet]
  · rw [c1_collect_eq]
    unfold resetGameState
    simp [mapGet]
